import Mathlib

/-!
Shallow embedding of `imadata.py`, a script that expands repository
metadata with IMA hashes: it analyzes RPM packages, builds an
`imadata.xml` document, and optionally registers it in `repomd.xml`.
-/

namespace Imadata

/-- The dictionary built by `analyze` (`info` in the source): identity
fields read from the RPM header plus the retained `(file name, digest)`
pairs.  `epoch` is `none` when the header has no epoch tag. -/
structure PackageRecord where
  name : String
  arch : String
  src : Bool
  epoch : Option Nat
  ver : String
  rel : String
  files : List (String × String)
deriving Repr, DecidableEq

/-- The data read from an RPM package header by the external `rpm`
library (`hdr` in the source): identity tags and the raw per-file
`(name, digest)` table, before any filtering. -/
structure RpmHeader where
  name : String
  arch : String
  src : Bool
  epoch : Option Nat
  ver : String
  rel : String
  files : List (String × String)
deriving Repr, DecidableEq

/-- `"0" * 64`, the placeholder digest for files with no IMA measurement. -/
def zeroDigest : String := String.mk (List.replicate 64 '0')

/-- `analyze(pkg)` (lines 15-39), given the parsed header: copies the
identity tags and keeps a file entry iff its digest differs from the
all-zero placeholder (`if f.digest != "0" * 64`). -/
def analyze (hdr : RpmHeader) : PackageRecord :=
  { name := hdr.name
    arch := hdr.arch
    src := hdr.src
    epoch := hdr.epoch
    ver := hdr.ver
    rel := hdr.rel
    files := hdr.files.filter (fun f => f.2 ≠ zeroDigest) }

/-- `analyze` including its file-descriptor discipline (lines 21-23):
`fd = os.open(pkg, os.O_RDONLY)`, then `hdr = ts.hdrFromFdno(fd)` which
may raise, then `os.close(fd)`.  The argument is the outcome of header
parsing (`none` models `hdrFromFdno` raising).  The returned `Nat` is
the number of descriptors still open for the package when the call
exits: when `hdrFromFdno` raises, the `os.close(fd)` line is never
reached, so the descriptor stays open. -/
def analyze_run (parse : Option RpmHeader) : Except String PackageRecord × Nat :=
  let fds : Nat := 1
  match parse with
  | none => (Except.error "error reading package header", fds)
  | some hdr => (Except.ok (analyze hdr), fds - 1)

/-- The value/exception outcome of one `analyze` call. -/
def analyzeE (parse : Option RpmHeader) : Except String PackageRecord :=
  (analyze_run parse).1

/-- Lines 42-47, `analyze_all(repository, jobs)`: `pool.map(analyze, …)`
over the discovered archives.  `pool.map` evaluates `analyze` on every
input and returns all results in input order, or re-raises the
exception of a failed call — the caller never sees a partial result
set.  Each discovered archive is represented by its header-parse
outcome, as in `analyze_run`. -/
def analyze_all : List (Option RpmHeader) → Except String (List PackageRecord)
  | [] => Except.ok []
  | a :: rest =>
    match analyzeE a with
    | .error msg => .error msg
    | .ok r =>
      match analyze_all rest with
      | .error msg => .error msg
      | .ok rs => .ok (r :: rs)

/-- The comparison used by `sorted(packages, key=lambda x: x["name"])`:
records compare by their `name` string. -/
def nameLe (a b : PackageRecord) : Prop := a.name ≤ b.name

instance : DecidableRel nameLe :=
  fun a b =>
    decidable_of_iff (¬ b.name.toList < a.name.toList)
      (by rw [nameLe, String.le_iff_toList_le]; exact not_lt)

instance : IsTotal PackageRecord nameLe := ⟨fun a b => le_total a.name b.name⟩

instance : IsTrans PackageRecord nameLe := ⟨fun _ _ _ hab hbc => le_trans hab hbc⟩

/-- Model of `sorted(packages, key=lambda x: x["name"])` (line 57).
The Python builtin `sorted` is a stable sort by the key;
`List.insertionSort` is a stable sort by the same comparison, hence
computes the same list. -/
def sortByName (packages : List PackageRecord) : List PackageRecord :=
  packages.insertionSort nameLe

/-- Python `x or 0` for an optional integer `x`: `None` and `0` are
falsy, so both yield the default. -/
def pyOrNat (x : Option Nat) (d : Nat) : Nat :=
  match x with
  | none => d
  | some v => if v = 0 then d else v

/-- Concatenation of the strings written by a sequence of `f.write`
calls, one call per list element. -/
def writeAll (l : List String) : String :=
  match l with
  | [] => ""
  | s :: rest => s ++ writeAll rest

/-- Line 65: the string written for one `(name, hash)` pair, a `file`
element with the digest as the `hash` attribute and the path as text. -/
def fileXml (f : String × String) : String :=
  "  <file hash=\"" ++ f.2 ++ "\">" ++ f.1 ++ "</file>\n"

/-- Lines 58-66: everything written for one package record: the
`<package>` line (`arch` is `"src"` when the source flag is set, else
the arch field of the record), the `<version>` line with
`pkg["epoch"] or 0`, one
`<file>` line per retained file, and the closing tag. -/
def packageXml (pkg : PackageRecord) : String :=
  "<package name=\"" ++ pkg.name ++ "\" arch=\""
      ++ (if pkg.src then "src" else pkg.arch) ++ "\">\n"
    ++ "  <version epoch=\"" ++ toString (pyOrNat pkg.epoch 0)
      ++ "\" ver=\"" ++ pkg.ver ++ "\" rel=\"" ++ pkg.rel ++ "\"/>\n"
    ++ writeAll (pkg.files.map fileXml)
    ++ "</package>\n"

/-- `imadata_xml(packages)` (lines 50-69): the full content written to
`repodata/imadata.xml` — prolog, root element carrying `len(packages)`,
the per-package blocks in name-sorted order, and the closing root tag. -/
def imadata_xml (packages : List PackageRecord) : String :=
  "<?xml version=\"1.0\" encoding=\"UTF-8\"?>\n"
    ++ "<imadata packages=\"" ++ toString packages.length ++ "\">\n"
    ++ writeAll ((sortByName packages).map packageXml)
    ++ "</imadata>"

/-- Split of a file name into stem and extension at the last dot, as
`pathlib` computes `Path.stem` and `Path.suffix` for the ordinary file
names this program handles; the extension includes the dot and is empty
when the name has no dot. -/
def splitExt : List Char → List Char × List Char
  | [] => ([], [])
  | c :: cs =>
    if '.' ∈ cs then
      let p := splitExt cs
      (c :: p.1, p.2)
    else if c = '.' then ([], c :: cs)
    else (c :: cs, [])

/-- Model of `path.with_suffix(s)`: the stem of the name followed by
the replacement extension. -/
def pyWithSuffix (name : String) (suffix : String) : String :=
  String.mk (splitExt name.data).1 ++ suffix

/-- Model of `path.suffix`: the extension of the name, dot included. -/
def pathSuffix (name : String) : String :=
  String.mk (splitExt name.data).2

/-- Lines 80-91, the name produced by `gzip_file`:
`path.with_suffix(imadata.suffix + ".gz")`.  At the only call site
(line 167) `path` is the module global `imadata` itself, so the suffix
of the global is the suffix of the argument. -/
def gzip_file_name (path : String) : String :=
  pyWithSuffix path (pathSuffix path ++ ".gz")

/-- Name of the compressed artifact written next to `imadata.xml`. -/
def imadata_gz_name : String := gzip_file_name "imadata.xml"

/-- Line 173: the rename target
`imadata_gz.with_name(f"{checksum}-{imadata_gz.name}")`. -/
def renamed_artifact (checksum : String) : String :=
  checksum ++ "-" ++ imadata_gz_name

/-- Line 128: the `href` attribute of the new `location` entry,
`f"repodata/{checksum}_{data.name}"`. -/
def location_href (checksum dataName : String) : String :=
  "repodata/" ++ checksum ++ "_" ++ dataName

/-- Node of an `xml.etree.ElementTree` document: tag, attributes in
insertion order, optional text, optional tail, child elements. -/
inductive Element where
  | mk (tag : String) (attrib : List (String × String)) (text : Option String)
      (tail : Option String) (children : List Element)

/-- Tag of an element. -/
def Element.tag : Element → String
  | .mk t _ _ _ _ => t

/-- Attributes of an element. -/
def Element.attrib : Element → List (String × String)
  | .mk _ a _ _ _ => a

/-- Text of an element. -/
def Element.text : Element → Option String
  | .mk _ _ x _ _ => x

/-- Tail of an element. -/
def Element.tail : Element → Option String
  | .mk _ _ _ x _ => x

/-- Children of an element. -/
def Element.children : Element → List Element
  | .mk _ _ _ _ c => c

/-- Replacement of the tail attribute of an element. -/
def Element.withTail (e : Element) (t : String) : Element :=
  match e with
  | .mk tag attrib text _ children => .mk tag attrib text (some t) children

/-- Model of `elems[-1].tail = t`: the tail of the last element of a
non-empty list is replaced (the program only does this on non-empty
lists; on `[]` Python would raise `IndexError`). -/
def setLastTail (t : String) : List Element → List Element
  | [] => []
  | [e] => [e.withTail t]
  | e :: e2 :: rest => e :: setLastTail t (e2 :: rest)

/-- Python `n * "  "`: `n` copies of the two-space indent unit, the
empty string for a nonpositive count (at the root, `level - 1` is `-1`
and yields the empty string, as truncated subtraction does here). -/
def spaces (n : Nat) : String := writeAll (List.replicate n "  ")

mutual

/-- Lines 94-104, `indent(elem, level)`: an element with children gets
its text set to a newline plus `level + 1` indent units and its tail to
a newline plus `level - 1` units, each child is indented recursively at
`level + 1`, and the tail of the last child is then set to a newline
plus `level` units; a childless element only gets that tail. -/
def indent (elem : Element) (level : Nat) : Element :=
  match elem with
  | .mk tag attrib text _ [] =>
    .mk tag attrib text (some ("\n" ++ spaces level)) []
  | .mk tag attrib _ _ (c :: cs) =>
    .mk tag attrib (some ("\n" ++ spaces (level + 1))) (some ("\n" ++ spaces (level - 1)))
      (setLastTail ("\n" ++ spaces level) (indentList (c :: cs) (level + 1)))

/-- Pointwise `indent` over a list of elements (the `for subelem in
elem` loop). -/
def indentList (elems : List Element) (level : Nat) : List Element :=
  match elems with
  | [] => []
  | e :: rest => indent e level :: indentList rest level

end

/-- Qualified tag that `root.findall` matches on line 114, with the
default repository-metadata namespace. -/
def dataTag : String := "\x7bhttp://linux.duke.edu/metadata/repo\x7ddata"

/-- Line 114, `root.findall("...data")`: the direct children of the
root carrying the qualified `data` tag. -/
def findallData (root : Element) : List Element :=
  root.children.filter (fun e => e.tag == dataTag)

/-- Lines 114-117: the loop over existing data entries.  Accessing
`e.attrib["type"]` raises `KeyError` when the attribute is missing;
when the value is `"imadata"` the program prints an error and calls
`exit(-1)`.  Both terminate the process, modelled as `Except.error`. -/
def checkDuplicates : List Element → Except String Unit
  | [] => Except.ok ()
  | e :: rest =>
    match e.attrib.lookup "type" with
    | none => Except.error "KeyError: type"
    | some t =>
      if t = "imadata" then Except.error "ERROR: data type imadata already present"
      else checkDuplicates rest

/-- Lines 107-137, `add_repomd`: parse is given as the `root` element;
after the duplicate check, the tail of the last existing child is
adjusted, a new `data` element with the checksum, open-checksum,
location, timestamp, size and open-size children is appended, the new
subtree is indented at level 1, and the resulting tree is the document
that `tree.write` then serialises.  The error cases (`exit(-1)`, an
uncaught `KeyError`, or `root[-1]` on a childless root raising
`IndexError`) all end the process before `tree.write` runs. -/
def add_repomd (root : Element) (dataName : String) (open_checksum : String)
    (open_size : Nat) (checksum : String) (size : Nat) (timestamp : Nat) :
    Except String Element :=
  match checkDuplicates (findallData root) with
  | .error msg => .error msg
  | .ok _ =>
  match root with
  | .mk tag attrib text tail children =>
    match children with
    | [] => Except.error "IndexError: list index out of range"
    | c :: cs =>
      let children1 := setLastTail "\n  " (c :: cs)
      let data_element := Element.mk "data" [("type", "imadata")] none none
        [ Element.mk "checksum" [("type", "sha256")] (some checksum) none []
        , Element.mk "open-checksum" [("type", "sha256")] (some open_checksum) none []
        , Element.mk "location" [("href", location_href checksum dataName)] none none []
        , Element.mk "timestamp" [] (some (toString timestamp)) none []
        , Element.mk "size" [] (some (toString size)) none []
        , Element.mk "open-size" [] (some (toString open_size)) none [] ]
      Except.ok (Element.mk tag attrib text tail (children1 ++ [indent data_element 1]))

/-- Stored `repomd.xml` tree after one registration attempt: line 135,
`tree.write(...)`, is the only statement that touches the file, and the
error paths terminate the process before reaching it, so on those paths
the file keeps its previous content. -/
def repomd_after_run (root : Element) (dataName : String) (open_checksum : String)
    (open_size : Nat) (checksum : String) (size : Nat) (timestamp : Nat) : Element :=
  match add_repomd root dataName open_checksum open_size checksum size timestamp with
  | .error _ => root
  | .ok t => t

/-- Detector of a `&` that is followed by a space or ends the input.
In well-formed XML every raw `&` must begin an entity or character
reference, whose first following character is never a space and never
missing, so a document whose text contains such a `&` is not
well-formed. -/
def ampBreaksXml : List Char → Bool
  | [] => false
  | ['&'] => true
  | '&' :: ' ' :: _ => true
  | _ :: rest => ampBreaksXml rest

/-- List of the `(name, hash)` pairs emitted as `file` elements by
`imadata_xml`, in document order (lines 57-65). -/
def docFiles (packages : List PackageRecord) : List (String × String) :=
  (sortByName packages).flatMap (fun p => p.files)

/-- Sample record with the source flag clear, no epoch, one file. -/
def sampleA : PackageRecord :=
  ⟨"alpha", "x86_64", false, none, "1.0", "1", [("/bin/a", "aa11")]⟩

/-- Sample record with the source flag set. -/
def sampleB : PackageRecord :=
  ⟨"beta", "noarch", true, some 2, "2.0", "3", []⟩

/-- Sample header carrying one measured file and one placeholder
entry. -/
def sampleHdr : RpmHeader :=
  ⟨"alpha", "x86_64", false, none, "1.0", "1",
    [("/bin/a", "aa11"), ("/bin/z", zeroDigest)]⟩

/-- Record whose name holds a raw XML-special ampersand followed by a
space. -/
def ampRecord : PackageRecord :=
  ⟨"a& b", "x86_64", false, none, "1", "1", []⟩

/-- Sample master index that already carries an imadata entry. -/
def sampleRepomdDup : Element :=
  Element.mk "repomd" [] none none
    [ Element.mk dataTag [("type", "primary")] none none []
    , Element.mk dataTag [("type", "imadata")] none none [] ]

/-- Sample master index without an imadata entry. -/
def sampleRepomdFresh : Element :=
  Element.mk "repomd" [] none none
    [Element.mk dataTag [("type", "primary")] none none []]

/-- Tree produced by a registration run against `sampleRepomdFresh`
with open checksum oc, open size 3, checksum abc, size 4 and
timestamp 5. -/
def sampleRegistered : Element :=
  Element.mk "repomd" [] none none
    [ Element.mk dataTag [("type", "primary")] none (some "\n  ") []
    , Element.mk "data" [("type", "imadata")] (some "\n    ") (some "\n")
        [ Element.mk "checksum" [("type", "sha256")] (some "abc") (some "\n    ") []
        , Element.mk "open-checksum" [("type", "sha256")] (some "oc") (some "\n    ") []
        , Element.mk "location" [("href", "repodata/abc_imadata.xml.gz")] none (some "\n    ") []
        , Element.mk "timestamp" [] (some "5") (some "\n    ") []
        , Element.mk "size" [] (some "4") (some "\n    ") []
        , Element.mk "open-size" [] (some "3") (some "\n  ") [] ] ]

/-- Strings with the same character data are equal. -/
theorem string_data_ext {s t : String} (h : s.data = t.data) : s = t := by
  cases s
  cases t
  exact congrArg String.mk h

/-- Data of a concatenation of strings. -/
theorem string_data_append (s t : String) : (s ++ t).data = s.data ++ t.data := rfl

/-- Ordered insertion never reorders the records of one name class:
filtering one name through an ordered insert equals filtering with the
inserted element in front. -/
theorem filter_orderedInsert_name (s : String) (a : PackageRecord) (l : List PackageRecord) :
    (List.orderedInsert nameLe a l).filter (fun p => p.name == s)
      = ((a :: l).filter (fun p => p.name == s)) := by
  induction l with
  | nil => rfl
  | cons b t ih =>
    rw [List.orderedInsert]
    by_cases hab : nameLe a b
    · rw [if_pos hab]
    · rw [if_neg hab]
      by_cases hpa : a.name = s
      · by_cases hpb : b.name = s
        · exact absurd (le_of_eq (hpa.trans hpb.symm) : a.name ≤ b.name) hab
        · simp [List.filter_cons, beq_iff_eq, hpa, hpb, ih]
      · by_cases hpb : b.name = s <;>
          simp [List.filter_cons, beq_iff_eq, hpa, hpb, ih]

/-- Stability of the Builder sort: for every name, the records carrying
that name appear in the sorted list exactly as they appear in the
input. -/
theorem filter_sortByName (s : String) (l : List PackageRecord) :
    (sortByName l).filter (fun p => p.name == s) = l.filter (fun p => p.name == s) := by
  induction l with
  | nil => rfl
  | cons a t ih =>
    unfold sortByName at ih ⊢
    simp only [List.insertionSort]
    rw [filter_orderedInsert_name]
    simp only [List.filter_cons, ih]

/-- Two lists that are permutations of each other, have equal key
images, and have no duplicate keys, are equal. -/
theorem eq_of_perm_of_map_eq {α β : Type _} (f : α → β) :
    ∀ l₁ l₂ : List α, l₁.Perm l₂ → l₁.map f = l₂.map f → (l₁.map f).Nodup → l₁ = l₂
  | [], l₂, hp, _, _ => hp.nil_eq
  | _ :: _, [], hp, _, _ => absurd hp (by simp)
  | a :: t₁, b :: t₂, hp, hm, hn => by
    simp only [List.map_cons, List.cons.injEq] at hm
    obtain ⟨hfab, hmt⟩ := hm
    have hab : a = b := by
      have hmem : a ∈ b :: t₂ := hp.mem_iff.mp (List.mem_cons_self a t₁)
      rcases List.mem_cons.mp hmem with h | h
      · exact h
      · exfalso
        have hin : f a ∈ List.map f t₂ := List.mem_map_of_mem f h
        rw [← hmt] at hin
        simp only [List.map_cons, List.nodup_cons] at hn
        exact hn.1 hin
    subst hab
    have hrest : t₁ = t₂ := by
      apply eq_of_perm_of_map_eq f t₁ t₂ hp.cons_inv hmt
      simp only [List.map_cons, List.nodup_cons] at hn
      exact hn.2
    rw [hrest]

/-- With pairwise distinct names, the Builder sort is a function of
the record set only, not of its order. -/
theorem sortByName_eq_of_perm {l₁ l₂ : List PackageRecord} (hp : l₁.Perm l₂)
    (hn : (l₁.map PackageRecord.name).Nodup) : sortByName l₁ = sortByName l₂ := by
  have hs : (sortByName l₁).Perm (sortByName l₂) :=
    (List.perm_insertionSort nameLe l₁).trans
      (hp.trans (List.perm_insertionSort nameLe l₂).symm)
  have hsort : ∀ l : List PackageRecord,
      ((sortByName l).map PackageRecord.name).Pairwise (· ≤ ·) := fun l =>
    List.Pairwise.map _ (fun _ _ h => h) (List.sorted_insertionSort nameLe l)
  have hmapeq : (sortByName l₁).map PackageRecord.name
      = (sortByName l₂).map PackageRecord.name :=
    List.eq_of_perm_of_sorted (hs.map _) (hsort l₁) (hsort l₂)
  have hn₁ : ((sortByName l₁).map PackageRecord.name).Nodup :=
    (((List.perm_insertionSort nameLe l₁).map PackageRecord.name).nodup_iff).mpr hn
  exact eq_of_perm_of_map_eq PackageRecord.name _ _ hs hmapeq hn₁

/-- C1: the Builder emits the package blocks sorted by name ascending;
for records with pairwise distinct names the document is the same
whatever the input or discovery order, and records of equal name keep
their input order — the sort is stable. -/
theorem builder_sorted_and_order_independent (l₁ l₂ : List PackageRecord) (hp : l₁.Perm l₂) :
    List.Pairwise nameLe (sortByName l₁)
    ∧ ((l₁.map PackageRecord.name).Nodup → imadata_xml l₁ = imadata_xml l₂)
    ∧ (∀ s : String,
        (sortByName l₁).filter (fun p => p.name == s) = l₁.filter (fun p => p.name == s)) := by
  refine ⟨List.sorted_insertionSort nameLe l₁, fun hn => ?_, fun s => filter_sortByName s l₁⟩
  unfold imadata_xml
  rw [sortByName_eq_of_perm hp hn, hp.length_eq]

/-- Check of the C1 theorem at a concrete pair of record lists. -/
theorem builder_sorted_and_order_independent_check :
    List.Pairwise nameLe (sortByName [sampleB, sampleA])
    ∧ imadata_xml [sampleB, sampleA] = imadata_xml [sampleA, sampleB] :=
  have h := builder_sorted_and_order_independent [sampleB, sampleA] [sampleA, sampleB]
    (List.Perm.swap sampleA sampleB [])
  ⟨h.1, h.2.1 (by decide)⟩

/-- C2: a per-file header record survives `analyze` exactly when its
digest is not the all-zero placeholder, and consequently no file entry
carried by the output document has the placeholder digest. -/
theorem zero_digest_never_emitted (hdr : RpmHeader) (p d : String)
    (hdrs : List RpmHeader) (q e : String) :
    ((p, d) ∈ (analyze hdr).files ↔ (p, d) ∈ hdr.files ∧ d ≠ zeroDigest)
    ∧ ((q, e) ∈ docFiles (hdrs.map analyze) → e ≠ zeroDigest) := by
  constructor
  · simp [analyze, List.mem_filter]
  · intro hmem
    unfold docFiles at hmem
    rw [List.mem_flatMap] at hmem
    obtain ⟨pkg, hpkg, hqe⟩ := hmem
    have hpkg2 : pkg ∈ hdrs.map analyze := (List.mem_insertionSort nameLe).mp hpkg
    obtain ⟨h0, _, hh0⟩ := List.mem_map.mp hpkg2
    rw [← hh0] at hqe
    simp only [analyze, List.mem_filter, decide_eq_true_eq] at hqe
    exact hqe.2

/-- Check of the C2 theorem at a concrete header set. -/
theorem zero_digest_never_emitted_check :
    (("/bin/z", zeroDigest) ∈ (analyze sampleHdr).files
        ↔ ("/bin/z", zeroDigest) ∈ sampleHdr.files ∧ zeroDigest ≠ zeroDigest)
    ∧ (("/bin/a", "aa11") ∈ docFiles ([sampleHdr].map analyze) → "aa11" ≠ zeroDigest) :=
  zero_digest_never_emitted sampleHdr "/bin/z" zeroDigest [sampleHdr] "/bin/a" "aa11"

/-- C5: the Builder is a pure function of the record list: the
embedding of lines 50-69 consumes nothing but the records — no clock,
no environment — so equal record lists give byte-identical document
content; the document embeds no timestamp. -/
theorem builder_deterministic (l₁ l₂ : List PackageRecord) (h : l₁ = l₂) :
    imadata_xml l₁ = imadata_xml l₂ :=
  congrArg imadata_xml h

/-- Check of the C5 theorem at a concrete record list. -/
theorem builder_deterministic_check :
    imadata_xml [sampleA, sampleB] = imadata_xml [sampleA, sampleB] :=
  builder_deterministic [sampleA, sampleB] [sampleA, sampleB] rfl

/-- C4 counterexample: on the exit path where header parsing fails,
`analyze` propagates the error while the open-descriptor count is
still 1 — line 23, `os.close(fd)`, is never reached on that path, so
the descriptor is not closed on every exit path. -/
theorem fd_not_closed_on_parse_failure :
    (analyze_run none).1 = Except.error "error reading package header"
    ∧ (analyze_run none).2 = 1 :=
  ⟨rfl, rfl⟩

/-- C4 (amended): the descriptor opened for the package is closed
before `analyze` returns on the success path; on the path where header
parsing raises, the call exits with the descriptor still open. -/
theorem fd_discipline (parse : Option RpmHeader) :
    (parse.isSome = true → (analyze_run parse).2 = 0)
    ∧ (parse = none → (analyze_run parse).2 = 1) := by
  cases parse <;> simp [analyze_run]

/-- Check of the amended C4 theorem on both paths. -/
theorem fd_discipline_check :
    (analyze_run (some sampleHdr)).2 = 0 ∧ (analyze_run none).2 = 1 :=
  ⟨(fd_discipline (some sampleHdr)).1 rfl, (fd_discipline none).2 rfl⟩

/-- C6: when the source flag is set the package element carries
arch "src" whatever the arch field holds — the output does not depend
on the arch field and equals the output for the same record with arch
literally "src"; with the flag clear the arch field is emitted
verbatim. -/
theorem src_overrides_arch (pkg : PackageRecord) (a : String) :
    (pkg.src = true → packageXml { pkg with arch := a } = packageXml pkg)
    ∧ (pkg.src = true → packageXml pkg = packageXml { pkg with src := false, arch := "src" })
    ∧ (pkg.src = false →
        ∃ t, packageXml pkg
          = "<package name=\"" ++ pkg.name ++ "\" arch=\"" ++ pkg.arch ++ t) := by
  refine ⟨fun hsrc => ?_, fun hsrc => ?_, fun hsrc => ?_⟩
  · simp [packageXml, hsrc]
  · simp [packageXml, hsrc]
  · refine ⟨"\">\n" ++ "  <version epoch=\"" ++ toString (pyOrNat pkg.epoch 0)
        ++ "\" ver=\"" ++ pkg.ver ++ "\" rel=\"" ++ pkg.rel ++ "\"/>\n"
        ++ writeAll (pkg.files.map fileXml) ++ "</package>\n", ?_⟩
    have harch : (if pkg.src = true then "src" else pkg.arch) = pkg.arch := by
      rw [hsrc]
      simp
    apply string_data_ext
    simp only [packageXml, harch, string_data_append, List.append_assoc]

/-- Check of the C6 theorem at concrete records of both flavours. -/
theorem src_overrides_arch_check :
    packageXml { sampleB with arch := "zzz" } = packageXml sampleB
    ∧ packageXml sampleB = packageXml { sampleB with src := false, arch := "src" }
    ∧ ∃ t, packageXml sampleA
        = "<package name=\"" ++ sampleA.name ++ "\" arch=\"" ++ sampleA.arch ++ t :=
  ⟨(src_overrides_arch sampleB "zzz").1 rfl,
   (src_overrides_arch sampleB "zzz").2.1 rfl,
   (src_overrides_arch sampleA "zzz").2.2 rfl⟩

/-- C7: a record with no epoch renders exactly like the same record
with epoch 0, and its version line carries the attribute text
epoch="0". -/
theorem epoch_absent_renders_zero (pkg : PackageRecord) (h : pkg.epoch = none) :
    packageXml pkg = packageXml { pkg with epoch := some 0 }
    ∧ ∃ s t, packageXml pkg = s ++ "epoch=\"0\"" ++ t := by
  constructor
  · simp [packageXml, h, pyOrNat]
  · refine ⟨"<package name=\"" ++ pkg.name ++ "\" arch=\""
        ++ (if pkg.src then "src" else pkg.arch) ++ "\">\n" ++ "  <version ",
      " ver=\"" ++ pkg.ver ++ "\" rel=\"" ++ pkg.rel ++ "\"/>\n"
        ++ writeAll (pkg.files.map fileXml) ++ "</package>\n", ?_⟩
    apply string_data_ext
    simp only [packageXml, h, string_data_append, List.append_assoc]
    rfl

/-- Check of the C7 theorem at a concrete epoch-less record. -/
theorem epoch_absent_renders_zero_check :
    packageXml sampleA = packageXml { sampleA with epoch := some 0 }
    ∧ ∃ s t, packageXml sampleA = s ++ "epoch=\"0\"" ++ t :=
  epoch_absent_renders_zero sampleA rfl

/-- Failure of any single extraction fails the whole scan. -/
theorem analyze_all_fails (archives : List (Option RpmHeader)) :
    (∃ a ∈ archives, a = none) → ∃ msg, analyze_all archives = Except.error msg := by
  induction archives with
  | nil => intro h; simp at h
  | cons a rest ih =>
    intro h
    cases a with
    | none => exact ⟨"error reading package header", rfl⟩
    | some hdr =>
      have hrest : ∃ x ∈ rest, x = none := by
        obtain ⟨x, hx, hxn⟩ := h
        rcases List.mem_cons.mp hx with h1 | hxr
        · subst hxn; simp at h1
        · exact ⟨x, hxr, hxn⟩
      obtain ⟨msg, hmsg⟩ := ih hrest
      exact ⟨msg, by simp [analyze_all, analyzeE, analyze_run, hmsg]⟩

/-- When no extraction fails, the scan returns one record per
archive. -/
theorem analyze_all_total (archives : List (Option RpmHeader)) :
    (∀ a ∈ archives, a.isSome = true) →
    ∃ recs, analyze_all archives = Except.ok recs ∧ recs.length = archives.length := by
  induction archives with
  | nil => exact fun _ => ⟨[], rfl, rfl⟩
  | cons a rest ih =>
    intro h
    cases a with
    | none =>
      have := h none (List.mem_cons_self none rest)
      simp at this
    | some hdr =>
      obtain ⟨recs, hok, hlen⟩ := ih fun x hx => h x (List.mem_cons_of_mem _ hx)
      refine ⟨analyze hdr :: recs, ?_, by simp [hlen]⟩
      simp [analyze_all, analyzeE, analyze_run, hok]

/-- C8: the scan fails as a whole when any extraction fails and never
yields a partial result set; when none fails it returns one record per
archive found; zero archives is not an error and yields the empty
record set, whose document carries a package count of 0 and no package
children. -/
theorem scan_all_or_nothing (archives : List (Option RpmHeader)) :
    ((∃ a ∈ archives, a = none) → ∃ msg, analyze_all archives = Except.error msg)
    ∧ ((∀ a ∈ archives, a.isSome = true) →
        ∃ recs, analyze_all archives = Except.ok recs ∧ recs.length = archives.length)
    ∧ analyze_all [] = Except.ok []
    ∧ imadata_xml []
        = "<?xml version=\"1.0\" encoding=\"UTF-8\"?>\n<imadata packages=\"0\">\n</imadata>" :=
  ⟨analyze_all_fails archives, analyze_all_total archives, rfl, rfl⟩

/-- Check of the C8 theorem at concrete archive sets. -/
theorem scan_all_or_nothing_check :
    (∃ msg, analyze_all [none] = Except.error msg)
    ∧ ∃ recs, analyze_all [some sampleHdr] = Except.ok recs
        ∧ recs.length = [some sampleHdr].length :=
  ⟨(scan_all_or_nothing [none]).1 ⟨none, List.mem_cons_self none [], rfl⟩,
   (scan_all_or_nothing [some sampleHdr]).2.1 (by decide)⟩

/-- Presence of an entry of type imadata makes the duplicate scan end
the process. -/
theorem checkDuplicates_fails (l : List Element)
    (h : ∃ e ∈ l, e.attrib.lookup "type" = some "imadata") :
    ∃ msg, checkDuplicates l = Except.error msg := by
  induction l with
  | nil => simp at h
  | cons e rest ih =>
    cases hL : e.attrib.lookup "type" with
    | none => exact ⟨"KeyError: type", by simp [checkDuplicates, hL]⟩
    | some t =>
      by_cases ht : t = "imadata"
      · exact ⟨"ERROR: data type imadata already present",
          by simp [checkDuplicates, hL, ht]⟩
      · have hrest : ∃ x ∈ rest, x.attrib.lookup "type" = some "imadata" := by
          obtain ⟨x, hx, hxt⟩ := h
          rcases List.mem_cons.mp hx with h1 | hxr
          · rw [h1, hL] at hxt
            exact absurd (Option.some.inj hxt) ht
          · exact ⟨x, hxr, hxt⟩
        obtain ⟨msg, hmsg⟩ := ih hrest
        exact ⟨msg, by simp [checkDuplicates, hL, ht, hmsg]⟩

/-- C3: when the master index already carries a top-level data entry of
type imadata, `add_repomd` ends the process with an error before
`tree.write`, so the stored index keeps its previous content — nothing
is overwritten or merged. -/
theorem duplicate_entry_aborts (root : Element) (dataName open_checksum : String)
    (open_size : Nat) (checksum : String) (size : Nat) (timestamp : Nat)
    (h : ∃ e ∈ findallData root, e.attrib.lookup "type" = some "imadata") :
    (∃ msg, add_repomd root dataName open_checksum open_size checksum size timestamp
        = Except.error msg)
    ∧ repomd_after_run root dataName open_checksum open_size checksum size timestamp
        = root := by
  obtain ⟨msg, hmsg⟩ := checkDuplicates_fails (findallData root) h
  have herr : add_repomd root dataName open_checksum open_size checksum size timestamp
      = Except.error msg := by
    unfold add_repomd
    rw [hmsg]
  refine ⟨⟨msg, herr⟩, ?_⟩
  unfold repomd_after_run
  rw [herr]

/-- Check of the C3 theorem at a concrete master index that already
carries an imadata entry. -/
theorem duplicate_entry_aborts_check :
    (∃ msg, add_repomd sampleRepomdDup "imadata.xml.gz" "oc" 3 "abc" 4 5
        = Except.error msg)
    ∧ repomd_after_run sampleRepomdDup "imadata.xml.gz" "oc" 3 "abc" 4 5
        = sampleRepomdDup :=
  duplicate_entry_aborts sampleRepomdDup "imadata.xml.gz" "oc" 3 "abc" 4 5 (by decide)

/-- C9: the compressed artifact is renamed to its checksum, a hyphen
and the original compressed name, while the location href registered
in the master index joins the checksum to the document base name with
an underscore. -/
theorem artifact_and_href_names (root newRoot : Element) (open_checksum : String)
    (open_size : Nat) (checksum : String) (size : Nat) (timestamp : Nat)
    (h : add_repomd root imadata_gz_name open_checksum open_size checksum size timestamp
        = Except.ok newRoot) :
    renamed_artifact checksum = checksum ++ "-imadata.xml.gz"
    ∧ ∃ dataElem, newRoot.children.getLast? = some dataElem
        ∧ ∃ loc ∈ dataElem.children, loc.tag = "location"
            ∧ loc.attrib = [("href", "repodata/" ++ checksum ++ "_imadata.xml.gz")] := by
  have h1 : renamed_artifact checksum = checksum ++ "-imadata.xml.gz" := by
    apply string_data_ext
    simp only [renamed_artifact, string_data_append, List.append_assoc]
    rfl
  have hhref : location_href checksum imadata_gz_name
      = "repodata/" ++ checksum ++ "_imadata.xml.gz" := by
    apply string_data_ext
    simp only [location_href, string_data_append, List.append_assoc]
    rfl
  refine ⟨h1, ?_⟩
  unfold add_repomd at h
  cases hdup : checkDuplicates (findallData root) with
  | error msg => rw [hdup] at h; simp at h
  | ok u =>
    rw [hdup] at h
    obtain ⟨tag, attrib, text, tail, children⟩ := root
    cases children with
    | nil => simp at h
    | cons c cs =>
      injection h with h2
      subst h2
      refine ⟨Element.mk "data" [("type", "imadata")] (some "\n    ") (some "\n")
          [ Element.mk "checksum" [("type", "sha256")] (some checksum) (some "\n    ") []
          , Element.mk "open-checksum" [("type", "sha256")] (some open_checksum)
              (some "\n    ") []
          , Element.mk "location" [("href", location_href checksum imadata_gz_name)]
              none (some "\n    ") []
          , Element.mk "timestamp" [] (some (toString timestamp)) (some "\n    ") []
          , Element.mk "size" [] (some (toString size)) (some "\n    ") []
          , Element.mk "open-size" [] (some (toString open_size)) (some "\n  ") [] ],
        ?_, ?_⟩
      · simp only [Element.children]
        rw [List.getLast?_concat]
        rfl
      · refine ⟨Element.mk "location" [("href", location_href checksum imadata_gz_name)]
            none (some "\n    ") [], ?_, rfl, ?_⟩
        · exact List.mem_cons_of_mem _ (List.mem_cons_of_mem _ (List.mem_cons_self _ _))
        · rw [Element.attrib, hhref]

/-- Check of the C9 theorem at a concrete registration run. -/
theorem artifact_and_href_names_check :
    renamed_artifact "abc" = "abc" ++ "-imadata.xml.gz"
    ∧ ∃ dataElem, sampleRegistered.children.getLast? = some dataElem
        ∧ ∃ loc ∈ dataElem.children, loc.tag = "location"
            ∧ loc.attrib = [("href", "repodata/" ++ "abc" ++ "_imadata.xml.gz")] :=
  artifact_and_href_names sampleRepomdFresh sampleRegistered "oc" 3 "abc" 4 5 rfl

/-- Writing the file loop around one of its members splits the written
string at that member. -/
theorem writeAll_decomp (f : String × String) (l : List (String × String)) (hf : f ∈ l) :
    ∃ u v, writeAll (l.map fileXml) = u ++ (fileXml f ++ v) := by
  induction l with
  | nil => cases hf
  | cons g rest ih =>
    rcases List.mem_cons.mp hf with h1 | hr
    · refine ⟨"", writeAll (rest.map fileXml), ?_⟩
      rw [h1]
      rfl
    · obtain ⟨u, v, huv⟩ := ih hr
      refine ⟨fileXml g ++ u, v, ?_⟩
      show fileXml g ++ writeAll (rest.map fileXml) = fileXml g ++ u ++ (fileXml f ++ v)
      rw [huv, String.append_assoc]

/-- C10: the Builder escapes nothing: the record name is emitted
verbatim right after the name attribute opens, every retained file
pair is emitted verbatim inside its file element, and a name carrying
a raw ampersand followed by a space yields a document that is not
well-formed XML. -/
theorem no_xml_escaping (pkg : PackageRecord) (f : String × String) (hf : f ∈ pkg.files) :
    (∃ t, packageXml pkg = "<package name=\"" ++ pkg.name ++ t)
    ∧ (∃ u v, packageXml pkg = u ++ (fileXml f ++ v))
    ∧ ampBreaksXml (imadata_xml [ampRecord]).data = true := by
  refine ⟨?_, ?_, by decide⟩
  · refine ⟨"\" arch=\"" ++ (if pkg.src then "src" else pkg.arch) ++ "\">\n"
        ++ "  <version epoch=\"" ++ toString (pyOrNat pkg.epoch 0)
        ++ "\" ver=\"" ++ pkg.ver ++ "\" rel=\"" ++ pkg.rel ++ "\"/>\n"
        ++ writeAll (pkg.files.map fileXml) ++ "</package>\n", ?_⟩
    apply string_data_ext
    simp only [packageXml, string_data_append, List.append_assoc]
  · obtain ⟨u, v, huv⟩ := writeAll_decomp f pkg.files hf
    refine ⟨"<package name=\"" ++ pkg.name ++ "\" arch=\""
        ++ (if pkg.src then "src" else pkg.arch) ++ "\">\n"
        ++ "  <version epoch=\"" ++ toString (pyOrNat pkg.epoch 0)
        ++ "\" ver=\"" ++ pkg.ver ++ "\" rel=\"" ++ pkg.rel ++ "\"/>\n" ++ u,
      v ++ "</package>\n", ?_⟩
    apply string_data_ext
    simp only [packageXml, huv, string_data_append, List.append_assoc]

/-- Check of the C10 theorem at a concrete record and file pair. -/
theorem no_xml_escaping_check :
    (∃ t, packageXml sampleA = "<package name=\"" ++ sampleA.name ++ t)
    ∧ (∃ u v, packageXml sampleA = u ++ (fileXml ("/bin/a", "aa11") ++ v))
    ∧ ampBreaksXml (imadata_xml [ampRecord]).data = true :=
  no_xml_escaping sampleA ("/bin/a", "aa11") (by decide)

end Imadata
